import Mathlib

/-!
Shallow embedding of the `mplbubblegumnif` Rust crate
(`src/native/mplbubblegumnif/src/{error,utils,transaction,lib}.rs`).

Bytes are modelled as `Nat` (with explicit `% 256` where the machine
produces a byte, and well-formedness predicates carrying the bounds that
Rust's `u8`/`u16`/`u32` types guarantee).  Fallible Rust code returning
`Result<_, NifError>` is modelled as `Except NifError _`; code that may
panic is modelled as `Option` with `none` standing for the panic.
The two network calls (`get_latest_blockhash`, `send_and_confirm_transaction`)
are modelled by an explicit `RpcEnv` oracle, and every operation returns,
next to its result, the list of network calls it performed, in order.
-/

set_option maxRecDepth 200000

namespace Bubblegum

/-- Error type of `error.rs` (`NifError`), one constructor per variant,
each carrying its message string. -/
inductive NifError where
  | InvalidPubkey (msg : String)
  | MissingMetadatafield (msg : String)
  | InvalidMetadata (msg : String)
  | RpcError (msg : String)
  | InstructionError (msg : String)
  | InvalidKeypair (msg : String)
  | SerializationError (msg : String)
deriving DecidableEq

/-- A Solana public key: 32 bytes (well-formedness is tracked separately). -/
structure Pubkey where
  bytes : List Nat
deriving DecidableEq

/-- A well-formed pubkey has exactly 32 bytes, each below 256. -/
abbrev Pubkey.wf (p : Pubkey) : Prop :=
  p.bytes.length = 32 ∧ ∀ b ∈ p.bytes, b < 256

/-- A Solana keypair: its 64-byte representation
(32 secret bytes followed by the 32 public-key bytes). -/
structure Keypair where
  bytes : List Nat
deriving DecidableEq

/-- Model of `Keypair::pubkey()`: the public half of the 64-byte form. -/
def Keypair.pubkey (k : Keypair) : Pubkey := ⟨k.bytes.drop 32⟩

/-! ## Base-58 (model of the external `bs58` crate used by
`Pubkey::from_str` and `Keypair::from_base58_string`) -/

/-- The Bitcoin base-58 alphabet used by `bs58`. -/
def b58Alphabet : List Char :=
  "123456789ABCDEFGHJKLMNPQRSTUVWXYZabcdefghijkmnopqrstuvwxyz".data

/-- Position of a character in an alphabet, or `none`. -/
def alphaIndex : List Char → Nat → Char → Option Nat
  | [], _, _ => none
  | a :: rest, i, c => if a = c then some i else alphaIndex rest (i + 1) c

/-- Base-58 digit value of a character. -/
def b58Val (c : Char) : Option Nat := alphaIndex b58Alphabet 0 c

/-- Map a fallible function over a list, failing on the first failure. -/
def mapOpt (f : α → Option β) : List α → Option (List β)
  | [] => some []
  | a :: as =>
    match f a with
    | none => none
    | some b =>
      match mapOpt f as with
      | none => none
      | some bs => some (b :: bs)

/-- Value of a big-endian digit string in base 58. -/
def b58Num (ds : List Nat) : Nat := ds.foldl (fun a d => a * 58 + d) 0

/-- Minimal big-endian byte representation of a natural number
(fuel-driven so that it reduces by `decide`; `fuel = n` always suffices). -/
def natToBEBytesAux : Nat → Nat → List Nat
  | 0, _ => []
  | fuel + 1, n => if n = 0 then [] else natToBEBytesAux fuel (n / 256) ++ [n % 256]

/-- Minimal big-endian byte representation of a natural number. -/
def natToBEBytes (n : Nat) : List Nat := natToBEBytesAux n n

/-- Number of leading `'1'` characters (each stands for one zero byte). -/
def countLeadingOnes : List Char → Nat
  | [] => 0
  | c :: rest => if c = '1' then countLeadingOnes rest + 1 else 0

/-- Model of `bs58::decode(s).into_vec()`: every character must be a
base-58 digit; the output is one zero byte per leading `'1'` followed by
the big-endian bytes of the value of the whole digit string. -/
def bs58Decode (s : List Char) : Option (List Nat) :=
  match mapOpt b58Val s with
  | none => none
  | some ds => some (List.replicate (countLeadingOnes s) 0 ++ natToBEBytes (b58Num ds))

/-! ## Key Codec (`utils.rs`) -/

/-- Model of `solana_sdk::pubkey::Pubkey::from_str` (external crate):
reject strings longer than 44 characters (`WrongSize`), then base-58
decode (`Invalid` on failure), then require exactly 32 bytes
(`WrongSize`).  The `Err` payload is the `ParsePubkeyError` display
string that the callers feed into `NifError::InvalidPubkey`. -/
def pubkeyFromStr (s : String) : Except String Pubkey :=
  if s.length > 44 then .error "String is the wrong size"
  else
    match bs58Decode s.data with
    | none => .error "Invalid Base58 string"
    | some bytes =>
      if bytes.length = 32 then .ok ⟨bytes⟩ else .error "String is the wrong size"

/-- `parse_pubkey` of `utils.rs` (lines 41-43): `Pubkey::from_str`
with the error mapped to `NifError::InvalidPubkey`. -/
def parse_pubkey (s : String) : Except NifError Pubkey :=
  match pubkeyFromStr s with
  | .ok p => .ok p
  | .error e => .error (.InvalidPubkey e)

/-- Model of `Keypair::from_base58_string` (external `solana_sdk` code):
base-58 decodes and then builds the keypair from the 64 decoded bytes,
panicking (`none`) when the decode fails or the length is not 64.
(The ed25519 point-validity check of `Keypair::from_bytes`, which also
panics through the same `unwrap`, is not modelled; it only shrinks the
set of accepted strings.) -/
def keypairFromBase58String (s : String) : Option Keypair :=
  match bs58Decode s.data with
  | none => none
  | some bytes => if bytes.length = 64 then some ⟨bytes⟩ else none

/-- `parse_keypair` of `utils.rs` (lines 30-38): runs the panicking
decoder inside `panic::catch_unwind` and turns any panic (`none`) into
the fixed recoverable error `InvalidKeypair "Invalid secret key"`. -/
def parse_keypair (s : String) : Except NifError Keypair :=
  match keypairFromBase58String s with
  | some kp => .ok kp
  | none => .error (.InvalidKeypair "Invalid secret key")

/-! ## Base-64 (model of the external `base64` crate,
`engine::general_purpose::STANDARD`: padded, canonical) -/

/-- The standard base-64 alphabet. -/
def b64Alphabet : List Char :=
  "ABCDEFGHIJKLMNOPQRSTUVWXYZabcdefghijklmnopqrstuvwxyz0123456789+/".data

/-- Character for a sextet value (values are always below 64 at use sites). -/
def b64Char (n : Nat) : Char := (b64Alphabet.getD n 'A')

/-- Sextet value of a base-64 character. -/
def b64Val (c : Char) : Option Nat := alphaIndex b64Alphabet 0 c

/-- Model of `BASE64.encode`: three bytes become four characters;
a one- or two-byte tail is padded with `'='`. -/
def b64encode : List Nat → List Char
  | [] => []
  | [a] => [b64Char (a / 4 % 64), b64Char (a % 4 * 16), '=', '=']
  | [a, b] =>
    [b64Char (a / 4 % 64), b64Char (a % 4 * 16 + b / 16 % 16), b64Char (b % 16 * 4), '=']
  | a :: b :: c :: rest =>
    b64Char (a / 4 % 64) :: b64Char (a % 4 * 16 + b / 16 % 16) ::
      b64Char (b % 16 * 4 + c / 64 % 4) :: b64Char (c % 64) :: b64encode rest

/-- Model of `BASE64.decode` (canonical: requires padding, rejects
nonzero trailing bits, length must be a multiple of four). -/
def b64decode : List Char → Option (List Nat)
  | [] => some []
  | w :: x :: y :: z :: rest =>
    match b64Val w, b64Val x with
    | some a, some b =>
      if z = '=' then
        if rest = [] then
          if y = '=' then
            if b % 16 = 0 then some [a * 4 + b / 16] else none
          else
            match b64Val y with
            | some c =>
              if c % 4 = 0 then some [a * 4 + b / 16, b % 16 * 16 + c / 4] else none
            | none => none
        else none
      else
        match b64Val y, b64Val z with
        | some c, some d =>
          match b64decode rest with
          | some bs => some ((a * 4 + b / 16) :: (b % 16 * 16 + c / 4) :: (c % 4 * 64 + d) :: bs)
          | none => none
        | _, _ => none
    | _, _ => none
  | _ => none

/-! ## Metadata model (`mpl_bubblegum::types`, external crate) -/

/-- Variant of `mpl_bubblegum::types::TokenProgramVersion`. -/
inductive TokenProgramVersion where
  | Original
  | Token2022
deriving DecidableEq

/-- Variant of `mpl_bubblegum::types::TokenStandard`. -/
inductive TokenStandard where
  | NonFungible
  | FungibleAsset
  | Fungible
  | NonFungibleEdition
deriving DecidableEq

/-- Variant of `mpl_bubblegum::types::UseMethod`. -/
inductive UseMethod where
  | Burn
  | Multiple
  | Single
deriving DecidableEq

/-- `mpl_bubblegum::types::Uses`. -/
structure Uses where
  use_method : UseMethod
  remaining : Nat
  total : Nat
deriving DecidableEq

/-- `mpl_bubblegum::types::Collection`. -/
structure Collection where
  verified : Bool
  key : Pubkey
deriving DecidableEq

/-- `mpl_bubblegum::types::Creator`. -/
structure Creator where
  address : Pubkey
  verified : Bool
  share : Nat
deriving DecidableEq

/-- `mpl_bubblegum::types::MetadataArgs`, fields in the crate's
declaration order (which fixes the Borsh wire order).  Rust `String`
fields are modelled as their UTF-8 byte lists. -/
structure MetadataArgs where
  name : List Nat
  symbol : List Nat
  uri : List Nat
  seller_fee_basis_points : Nat
  primary_sale_happened : Bool
  is_mutable : Bool
  edition_nonce : Option Nat
  token_standard : Option TokenStandard
  collection : Option Collection
  uses : Option Uses
  token_program_version : TokenProgramVersion
  creators : List Creator
deriving DecidableEq

/-- Machine-integer bounds that Rust's types guarantee for a `Creator`. -/
abbrev Creator.wf (c : Creator) : Prop := c.address.wf ∧ c.share < 256

/-- Machine-integer bounds that Rust's types guarantee
for a `MetadataArgs` value. -/
abbrev MetadataArgs.wf (m : MetadataArgs) : Prop :=
  (∀ b ∈ m.name, b < 256) ∧ m.name.length < 2 ^ 32 ∧
  (∀ b ∈ m.symbol, b < 256) ∧ m.symbol.length < 2 ^ 32 ∧
  (∀ b ∈ m.uri, b < 256) ∧ m.uri.length < 2 ^ 32 ∧
  m.seller_fee_basis_points < 2 ^ 16 ∧
  (∀ n ∈ m.edition_nonce, n < 256) ∧
  (∀ c ∈ m.collection, c.key.wf) ∧
  (∀ u ∈ m.uses, u.remaining < 2 ^ 64 ∧ u.total < 2 ^ 64) ∧
  (∀ c ∈ m.creators, c.wf) ∧ m.creators.length < 2 ^ 32

/-! ## Borsh serialization (model of the `borsh` crate's derived codec
for `MetadataArgs`).  Integers are little-endian fixed width; `String`
and `Vec` carry a `u32` length prefix (serialization fails when the
length does not fit in `u32`); `Option` is a one-byte tag followed by
the payload; enums are a one-byte variant tag. -/

/-- Little-endian bytes of a `u8` value. -/
def sU8 (n : Nat) : List Nat := [n % 256]

/-- Little-endian bytes of a `u16` value. -/
def sU16 (n : Nat) : List Nat := [n % 256, n / 256 % 256]

/-- Little-endian bytes of a `u32` value. -/
def sU32 (n : Nat) : List Nat :=
  [n % 256, n / 256 % 256, n / 256 ^ 2 % 256, n / 256 ^ 3 % 256]

/-- Little-endian bytes of a `u64` value. -/
def sU64 (n : Nat) : List Nat :=
  [n % 256, n / 256 % 256, n / 256 ^ 2 % 256, n / 256 ^ 3 % 256,
   n / 256 ^ 4 % 256, n / 256 ^ 5 % 256, n / 256 ^ 6 % 256, n / 256 ^ 7 % 256]

/-- Borsh `bool`: one byte, `1` for true, `0` for false. -/
def sBool (b : Bool) : List Nat := [if b then 1 else 0]

/-- Borsh `String` / `Vec<u8>`: `u32` length prefix then the raw bytes;
fails when the length does not fit in `u32`. -/
def sBytes (s : List Nat) : Option (List Nat) :=
  if s.length < 2 ^ 32 then some (sU32 s.length ++ s) else none

/-- Borsh `Pubkey` (`[u8; 32]`): the raw 32 bytes, no length prefix. -/
def sPubkey (p : Pubkey) : List Nat := p.bytes

/-- Borsh `Option<T>` with a total payload serializer. -/
def sOption (f : α → List Nat) : Option α → List Nat
  | none => [0]
  | some x => 1 :: f x

/-- Borsh tag of `TokenProgramVersion`. -/
def sTokenProgramVersion : TokenProgramVersion → List Nat
  | .Original => [0]
  | .Token2022 => [1]

/-- Borsh tag of `TokenStandard`. -/
def sTokenStandard : TokenStandard → List Nat
  | .NonFungible => [0]
  | .FungibleAsset => [1]
  | .Fungible => [2]
  | .NonFungibleEdition => [3]

/-- Borsh tag of `UseMethod`. -/
def sUseMethod : UseMethod → List Nat
  | .Burn => [0]
  | .Multiple => [1]
  | .Single => [2]

/-- Borsh encoding of `Uses`. -/
def sUses (u : Uses) : List Nat := sUseMethod u.use_method ++ sU64 u.remaining ++ sU64 u.total

/-- Borsh encoding of `Collection`. -/
def sCollection (c : Collection) : List Nat := sBool c.verified ++ sPubkey c.key

/-- Borsh encoding of `Creator`. -/
def sCreator (c : Creator) : List Nat := sPubkey c.address ++ sBool c.verified ++ sU8 c.share

/-- Concatenation of a list of byte lists. -/
def concatAll : List (List Nat) → List Nat
  | [] => []
  | l :: ls => l ++ concatAll ls

/-- Borsh `Vec<Creator>`: `u32` length prefix then the element encodings. -/
def sVecCreators (cs : List Creator) : Option (List Nat) :=
  if cs.length < 2 ^ 32 then some (sU32 cs.length ++ concatAll (cs.map sCreator)) else none

/-- Borsh encoding of `MetadataArgs` (`metadata.try_to_vec()`),
fields in declaration order. -/
def sMetadataArgs (m : MetadataArgs) : Option (List Nat) :=
  match sBytes m.name, sBytes m.symbol, sBytes m.uri, sVecCreators m.creators with
  | some n, some sy, some u, some cs =>
    some (n ++ sy ++ u ++ sU16 m.seller_fee_basis_points ++
      sBool m.primary_sale_happened ++ sBool m.is_mutable ++
      sOption sU8 m.edition_nonce ++ sOption sTokenStandard m.token_standard ++
      sOption sCollection m.collection ++ sOption sUses m.uses ++
      sTokenProgramVersion m.token_program_version ++ cs)
  | _, _, _, _ => none

/-! ## Borsh deserialization (prefix-consuming decoders returning the
value and the unconsumed tail). -/

/-- Decode a `u8`. -/
def dU8 : List Nat → Option (Nat × List Nat)
  | b :: r => some (b, r)
  | [] => none

/-- Decode a little-endian `u16`. -/
def dU16 : List Nat → Option (Nat × List Nat)
  | b0 :: b1 :: r => some (b0 + 256 * b1, r)
  | _ => none

/-- Decode a little-endian `u32`. -/
def dU32 : List Nat → Option (Nat × List Nat)
  | b0 :: b1 :: b2 :: b3 :: r => some (b0 + 256 * b1 + 256 ^ 2 * b2 + 256 ^ 3 * b3, r)
  | _ => none

/-- Decode a little-endian `u64`. -/
def dU64 : List Nat → Option (Nat × List Nat)
  | b0 :: b1 :: b2 :: b3 :: b4 :: b5 :: b6 :: b7 :: r =>
    some (b0 + 256 * b1 + 256 ^ 2 * b2 + 256 ^ 3 * b3 +
      256 ^ 4 * b4 + 256 ^ 5 * b5 + 256 ^ 6 * b6 + 256 ^ 7 * b7, r)
  | _ => none

/-- Decode a Borsh `bool` (any byte other than `0`/`1` is rejected). -/
def dBool : List Nat → Option (Bool × List Nat)
  | 0 :: r => some (false, r)
  | 1 :: r => some (true, r)
  | _ => none

/-- Take exactly `n` bytes off the front. -/
def dTake (n : Nat) (bs : List Nat) : Option (List Nat × List Nat) :=
  if bs.length < n then none else some (bs.take n, bs.drop n)

/-- Decode a Borsh `String` / `Vec<u8>` payload.  (Borsh additionally
checks the bytes are valid UTF-8 for `String`; on round-trip inputs the
bytes are those of a Rust `String`, so that check always passes and is
not modelled.) -/
def dBytes (bs : List Nat) : Option (List Nat × List Nat) :=
  match dU32 bs with
  | none => none
  | some (n, bs) => dTake n bs

/-- Decode a `Pubkey` (32 raw bytes). -/
def dPubkey (bs : List Nat) : Option (Pubkey × List Nat) :=
  match dTake 32 bs with
  | none => none
  | some (b, r) => some (⟨b⟩, r)

/-- Decode a Borsh `Option<T>`. -/
def dOption (f : List Nat → Option (α × List Nat)) : List Nat → Option (Option α × List Nat)
  | 0 :: r => some (none, r)
  | 1 :: r =>
    match f r with
    | none => none
    | some (x, r) => some (some x, r)
  | _ => none

/-- Decode a `TokenProgramVersion` tag. -/
def dTokenProgramVersion : List Nat → Option (TokenProgramVersion × List Nat)
  | 0 :: r => some (.Original, r)
  | 1 :: r => some (.Token2022, r)
  | _ => none

/-- Decode a `TokenStandard` tag. -/
def dTokenStandard : List Nat → Option (TokenStandard × List Nat)
  | 0 :: r => some (.NonFungible, r)
  | 1 :: r => some (.FungibleAsset, r)
  | 2 :: r => some (.Fungible, r)
  | 3 :: r => some (.NonFungibleEdition, r)
  | _ => none

/-- Decode a `UseMethod` tag. -/
def dUseMethod : List Nat → Option (UseMethod × List Nat)
  | 0 :: r => some (.Burn, r)
  | 1 :: r => some (.Multiple, r)
  | 2 :: r => some (.Single, r)
  | _ => none

/-- Decode a `Uses` record. -/
def dUses (bs : List Nat) : Option (Uses × List Nat) := do
  let (um, bs) ← dUseMethod bs
  let (rem, bs) ← dU64 bs
  let (tot, bs) ← dU64 bs
  some (⟨um, rem, tot⟩, bs)

/-- Decode a `Collection` record. -/
def dCollection (bs : List Nat) : Option (Collection × List Nat) := do
  let (v, bs) ← dBool bs
  let (k, bs) ← dPubkey bs
  some (⟨v, k⟩, bs)

/-- Decode a `Creator` record. -/
def dCreator (bs : List Nat) : Option (Creator × List Nat) := do
  let (a, bs) ← dPubkey bs
  let (v, bs) ← dBool bs
  let (sh, bs) ← dU8 bs
  some (⟨a, v, sh⟩, bs)

/-- Decode `n` consecutive values. -/
def dCount (f : List Nat → Option (α × List Nat)) : Nat → List Nat → Option (List α × List Nat)
  | 0, bs => some ([], bs)
  | n + 1, bs => do
    let (a, bs) ← f bs
    let (as, bs) ← dCount f n bs
    some (a :: as, bs)

/-- Decode a Borsh `Vec<Creator>`. -/
def dVecCreators (bs : List Nat) : Option (List Creator × List Nat) := do
  let (n, bs) ← dU32 bs
  dCount dCreator n bs

/-- Decode a `MetadataArgs` record, fields in declaration order. -/
def dMetadataArgs (bs : List Nat) : Option (MetadataArgs × List Nat) := do
  let (name, bs) ← dBytes bs
  let (symbol, bs) ← dBytes bs
  let (uri, bs) ← dBytes bs
  let (sfbp, bs) ← dU16 bs
  let (psh, bs) ← dBool bs
  let (mu, bs) ← dBool bs
  let (en, bs) ← dOption dU8 bs
  let (ts, bs) ← dOption dTokenStandard bs
  let (col, bs) ← dOption dCollection bs
  let (us, bs) ← dOption dUses bs
  let (tpv, bs) ← dTokenProgramVersion bs
  let (cs, bs) ← dVecCreators bs
  some (⟨name, symbol, uri, sfbp, psh, mu, en, ts, col, us, tpv, cs⟩, bs)

/-- Model of `MetadataArgs::try_from_slice`: decode and require that
every byte was consumed. -/
def metadataArgsTryFromSlice (bs : List Nat) : Option MetadataArgs :=
  match dMetadataArgs bs with
  | some (m, []) => some m
  | _ => none

/-! ## Metadata Codec (`serialize_metadata_to_borsh`, `utils.rs` 46-109) -/

/-- The serde target `CreatorInput` of `utils.rs` (lines 59-64): the
creator entry of the metadata JSON, with the address still a string. -/
structure CreatorInput where
  address : String
  verified : Bool
  share : Nat
deriving DecidableEq

/-- The serde target `MetadataInput` of `utils.rs` (lines 48-57): the
result of the JSON parse of the metadata document (`String` values are
modelled as their UTF-8 byte lists; `creators` is optional, covering an
absent or `null` field). -/
structure MetadataInput where
  name : List Nat
  symbol : List Nat
  uri : List Nat
  seller_fee_basis_points : Nat
  creators : Option (List CreatorInput)
  primary_sale_happened : Bool
  is_mutable : Bool
deriving DecidableEq

/-- Machine-integer bounds that Rust's types (`u8`, `u16`) and memory
limits (`usize` lengths below `2^32`) guarantee for a parsed document. -/
abbrev MetadataInput.wf (m : MetadataInput) : Prop :=
  (∀ b ∈ m.name, b < 256) ∧ m.name.length < 2 ^ 32 ∧
  (∀ b ∈ m.symbol, b < 256) ∧ m.symbol.length < 2 ^ 32 ∧
  (∀ b ∈ m.uri, b < 256) ∧ m.uri.length < 2 ^ 32 ∧
  m.seller_fee_basis_points < 2 ^ 16 ∧
  (∀ c ∈ m.creators.getD [], c.share < 256) ∧ (m.creators.getD []).length < 2 ^ 32

/-- Conversion of one JSON creator entry (`utils.rs` 75-83):
`Pubkey::from_str` on the address, error mapped to `InvalidPubkey`. -/
def creatorFromInput (c : CreatorInput) : Except NifError Creator :=
  match pubkeyFromStr c.address with
  | .error e => .error (.InvalidPubkey e)
  | .ok address => .ok ⟨address, c.verified, c.share⟩

/-- The `collect::<Result<Vec<Creator>, NifError>>()` over the creator
list: stops at the first failing entry. -/
def collectCreators : List CreatorInput → Except NifError (List Creator)
  | [] => .ok []
  | c :: cs =>
    match creatorFromInput c with
    | .error e => .error e
    | .ok c' =>
      match collectCreators cs with
      | .error e => .error e
      | .ok cs' => .ok (c' :: cs')

/-- The `MetadataArgs` value built at `utils.rs` 86-99: input fields
copied over, codec-reserved fields defaulted
(`edition_nonce`/`uses`/`collection`/`token_standard` to `None`,
`token_program_version` to `Original`). -/
def metadataArgsOf (m : MetadataInput) (creators : List Creator) : MetadataArgs :=
  { name := m.name
    symbol := m.symbol
    uri := m.uri
    seller_fee_basis_points := m.seller_fee_basis_points
    primary_sale_happened := m.primary_sale_happened
    is_mutable := m.is_mutable
    edition_nonce := none
    token_standard := none
    collection := none
    uses := none
    token_program_version := .Original
    creators := creators }

/-- `serialize_metadata_to_borsh` (`utils.rs` 46-109), starting from the
parsed JSON document: convert the creators (absent list defaulting to
empty), build `MetadataArgs`, Borsh-serialize, base-64 encode.  (The
JSON-parse step itself, whose failure is
`InvalidMetadata "JSON parse error: ..."`, precedes this model.) -/
def serialize_metadata_to_borsh (m : MetadataInput) : Except NifError String :=
  match collectCreators (m.creators.getD []) with
  | .error e => .error e
  | .ok creators =>
    match sMetadataArgs (metadataArgsOf m creators) with
    | none => .error (.SerializationError "Borsh serialize error")
    | some bytes => .ok (String.mk (b64encode bytes))

/-! ## Instructions, transactions and the RPC oracle
(`transaction.rs`, `utils.rs` 13-27) -/

/-- The fields collected by `mpl_bubblegum`'s `MintV1Builder` as used at
`transaction.rs` 90-98. -/
structure MintInstruction where
  tree_config : Pubkey
  leaf_owner : Pubkey
  leaf_delegate : Pubkey
  merkle_tree : Pubkey
  payer : Pubkey
  tree_creator_or_delegate : Pubkey
  metadata : MetadataArgs
deriving DecidableEq

/-- The fields collected by `mpl_bubblegum`'s `TransferBuilder` as used
at `transaction.rs` 129-140 (the `Bool` next to owner and delegate is
the builder's is-signer flag). -/
structure TransferInstruction where
  tree_config : Pubkey
  merkle_tree : Pubkey
  leaf_owner : Pubkey × Bool
  leaf_delegate : Pubkey × Bool
  new_leaf_owner : Pubkey
  root : List Nat
  data_hash : List Nat
  creator_hash : List Nat
  nonce : Nat
  index : Nat
deriving DecidableEq

/-- The fields collected by `mpl_bubblegum`'s `CreateTreeConfigBuilder`
as used at `transaction.rs` 42-49. -/
structure CreateTreeInstruction where
  payer : Pubkey
  tree_creator : Pubkey
  tree_config : Pubkey
  merkle_tree : Pubkey
  max_depth : Nat
  max_buffer_size : Nat
deriving DecidableEq

/-- A protocol instruction: one variant per builder used by the crate. -/
inductive Instruction where
  | mint (i : MintInstruction)
  | transferIx (i : TransferInstruction)
  | createTree (i : CreateTreeInstruction)
deriving DecidableEq

/-- A recent blockhash (opaque; modelled as a number). -/
abbrev BHash := Nat

/-- `Message::new(&[instruction], Some(&fee_payer))`. -/
structure Message where
  instructions : List Instruction
  fee_payer : Pubkey
deriving DecidableEq

/-- A signed transaction: the message, the keypairs passed to
`try_sign`, and the recent blockhash it was signed against. -/
structure Tx where
  message : Message
  signers : List Keypair
  blockhash : BHash
deriving DecidableEq

/-- One network call performed against the RPC endpoint. -/
inductive NetCall where
  | getBlockhash
  | submit (tx : Tx)
deriving DecidableEq

/-- The RPC endpoint as an oracle: the response to a blockhash fetch and
to a submission.  `Except.error` carries the transport error message. -/
structure RpcEnv where
  latest_blockhash : Except String BHash
  send_and_confirm : Tx → Except String String

/-- `get_recent_blockhash` (`utils.rs` 13-18): one RPC call, transport
errors mapped to `RpcError`. -/
def get_recent_blockhash (env : RpcEnv) : Except NifError BHash × List NetCall :=
  match env.latest_blockhash with
  | .ok h => (.ok h, [.getBlockhash])
  | .error e => (.error (.RpcError e), [.getBlockhash])

/-- `submit_tx` (`utils.rs` 21-27): a single
`send_and_confirm_transaction` call, transport errors mapped to
`RpcError`, the confirmation signature returned as a string. -/
def submit_tx (env : RpcEnv) (tx : Tx) : Except NifError String × List NetCall :=
  match env.send_and_confirm tx with
  | .ok sig => (.ok sig, [.submit tx])
  | .error e => (.error (.RpcError e), [.submit tx])

/-! ## The three operations (`transaction.rs`).  Each mirrors the Rust
`?`-chain: any early error returns with no network call performed.
(The `format!` wrappers around inner error displays are modelled by
their constant prefixes.) -/

/-- `create_tree_config` (`transaction.rs` 24-62). -/
def create_tree_config (env : RpcEnv) (payer_pubkey tree_creator_pubkey : String)
    (max_depth max_buffer_size : Nat) (payer_secret_key tree_creator_secret_key : String) :
    Except NifError String × List NetCall :=
  match parse_pubkey payer_pubkey with
  | .error e => (.error e, [])
  | .ok payer =>
  match parse_pubkey tree_creator_pubkey with
  | .error e => (.error e, [])
  | .ok tree_creator =>
  match parse_keypair payer_secret_key with
  | .error e => (.error e, [])
  | .ok payer_keypair =>
  match parse_keypair tree_creator_secret_key with
  | .error e => (.error e, [])
  | .ok tree_creator_keypair =>
  let instruction := Instruction.createTree
    { payer := payer, tree_creator := tree_creator, tree_config := payer,
      merkle_tree := tree_creator, max_depth := max_depth, max_buffer_size := max_buffer_size }
  match get_recent_blockhash env with
  | (.error e, calls) => (.error e, calls)
  | (.ok recent_blockhash, calls) =>
  let message : Message := ⟨[instruction], payer⟩
  let tx : Tx := ⟨message, [payer_keypair, tree_creator_keypair], recent_blockhash⟩
  let (res, calls2) := submit_tx env tx
  (res, calls ++ calls2)

/-- `mint_v1` (`transaction.rs` 64-110). -/
def mint_v1 (env : RpcEnv) (tree_pubkey leaf_owner leaf_delegate : String)
    (metadata_borsh : String) (payer_secret_key leaf_owner_secret_key : String) :
    Except NifError String × List NetCall :=
  match parse_pubkey tree_pubkey with
  | .error e => (.error e, [])
  | .ok tree =>
  match parse_pubkey leaf_owner with
  | .error e => (.error e, [])
  | .ok owner =>
  match parse_pubkey leaf_delegate with
  | .error e => (.error e, [])
  | .ok delegate =>
  match parse_keypair payer_secret_key with
  | .error e => (.error e, [])
  | .ok payer_keypair =>
  match parse_keypair leaf_owner_secret_key with
  | .error e => (.error e, [])
  | .ok _leaf_owner_keypair =>
  match b64decode metadata_borsh.data with
  | none => (.error (.InvalidMetadata "Base64 decode error"), [])
  | some metadata_bytes =>
  match metadataArgsTryFromSlice metadata_bytes with
  | none => (.error (.InvalidMetadata "Borsh deserialize error"), [])
  | some metadata =>
  let instruction := Instruction.mint
    { tree_config := tree, leaf_owner := owner, leaf_delegate := delegate,
      merkle_tree := tree, payer := payer_keypair.pubkey,
      tree_creator_or_delegate := payer_keypair.pubkey, metadata := metadata }
  match get_recent_blockhash env with
  | (.error e, calls) => (.error e, calls)
  | (.ok recent_blockhash, calls) =>
  let message : Message := ⟨[instruction], payer_keypair.pubkey⟩
  let tx : Tx := ⟨message, [payer_keypair], recent_blockhash⟩
  let (res, calls2) := submit_tx env tx
  (res, calls ++ calls2)

/-- `transfer` (`transaction.rs` 112-152).  The proof triple and the
nonce are filled with the literal placeholders of the source
(`[0; 32]`, `0`); they are not parameters of the function. -/
def transfer (env : RpcEnv) (tree_pubkey leaf_owner new_leaf_owner : String)
    (leaf_index : Nat) (payer_secret_key leaf_owner_secret_key : String) :
    Except NifError String × List NetCall :=
  match parse_pubkey tree_pubkey with
  | .error e => (.error e, [])
  | .ok tree =>
  match parse_pubkey leaf_owner with
  | .error e => (.error e, [])
  | .ok owner =>
  match parse_pubkey new_leaf_owner with
  | .error e => (.error e, [])
  | .ok new_owner =>
  match parse_keypair payer_secret_key with
  | .error e => (.error e, [])
  | .ok payer_keypair =>
  match parse_keypair leaf_owner_secret_key with
  | .error e => (.error e, [])
  | .ok leaf_owner_keypair =>
  let instruction := Instruction.transferIx
    { tree_config := tree, merkle_tree := tree, leaf_owner := (owner, true),
      leaf_delegate := (owner, false), new_leaf_owner := new_owner,
      root := List.replicate 32 0, data_hash := List.replicate 32 0,
      creator_hash := List.replicate 32 0, nonce := 0, index := leaf_index }
  match get_recent_blockhash env with
  | (.error e, calls) => (.error e, calls)
  | (.ok recent_blockhash, calls) =>
  let message : Message := ⟨[instruction], payer_keypair.pubkey⟩
  let tx : Tx := ⟨message, [payer_keypair, leaf_owner_keypair], recent_blockhash⟩
  let (res, calls2) := submit_tx env tx
  (res, calls ++ calls2)

end Bubblegum

/-- Decidable equality on `Except`, used to evaluate concrete runs. -/
instance {ε α : Type} [DecidableEq ε] [DecidableEq α] : DecidableEq (Except ε α) := fun x y =>
  match x, y with
  | .ok a, .ok b =>
    if h : a = b then isTrue (by rw [h]) else isFalse (fun hc => by cases hc; exact h rfl)
  | .error a, .error b =>
    if h : a = b then isTrue (by rw [h]) else isFalse (fun hc => by cases hc; exact h rfl)
  | .ok _, .error _ => isFalse (fun hc => by cases hc)
  | .error _, .ok _ => isFalse (fun hc => by cases hc)

namespace Bubblegum

/-! ## Concrete values used to evaluate the model on closed runs. -/

/-- An RPC endpoint that answers every request successfully. -/
def env0 : RpcEnv := { latest_blockhash := .ok 0, send_and_confirm := fun _ => .ok "sig" }

/-- An RPC endpoint that always reports a rate-limit transport error on
submission. -/
def envRate : RpcEnv :=
  { latest_blockhash := .ok 0,
    send_and_confirm := fun _ => .error "429 Too Many Requests: rate limit reached" }

/-- The base-58 spelling of the all-zero 32-byte public key. -/
def pk1 : String := "11111111111111111111111111111111"

/-- The base-58 spelling of the all-zero 64-byte keypair. -/
def sk1 : String := "1111111111111111111111111111111111111111111111111111111111111111"

/-- The all-zero public key. -/
def p0 : Pubkey := ⟨List.replicate 32 0⟩

/-- The all-zero keypair. -/
def kp0 : Keypair := ⟨List.replicate 64 0⟩

/-- A minimal metadata document (empty strings, no creators). -/
def mdDoc0 : MetadataInput :=
  { name := [], symbol := [], uri := [], seller_fee_basis_points := 0,
    creators := none, primary_sale_happened := false, is_mutable := false }

/-- The base-64/Borsh encoding of `mdDoc0`'s metadata. -/
def mdB64 : String := "AAAAAAAAAAAAAAAAAAAAAAAAAAAAAAAAAA=="

/-- A metadata document with one creator (the all-zero address). -/
def mdDoc1 : MetadataInput :=
  { name := [], symbol := [], uri := [], seller_fee_basis_points := 0,
    creators := some [⟨pk1, false, 100⟩],
    primary_sale_happened := false, is_mutable := true }

/-- The serializer's output on `mdDoc1`. -/
def mdDoc1B64 : String :=
  "AAAAAAAAAAAAAAAAAAAAAQAAAAAAAQAAAAAAAAAAAAAAAAAAAAAAAAAAAAAAAAAAAAAAAAAAAAAAAGQ="

/-- A metadata document whose creator address is not base-58. -/
def mdDocBad : MetadataInput :=
  { name := [], symbol := [], uri := [], seller_fee_basis_points := 0,
    creators := some [⟨"invalid_pubkey", false, 100⟩],
    primary_sale_happened := false, is_mutable := true }

/-- The metadata record encoded by `mdB64`. -/
def argsEmpty : MetadataArgs :=
  { name := [], symbol := [], uri := [], seller_fee_basis_points := 0,
    primary_sale_happened := false, is_mutable := false, edition_nonce := none,
    token_standard := none, collection := none, uses := none,
    token_program_version := .Original, creators := [] }

/-- The mint instruction the model builds on the all-zero inputs. -/
def mintIx0 : MintInstruction :=
  { tree_config := p0, leaf_owner := p0, leaf_delegate := p0, merkle_tree := p0,
    payer := p0, tree_creator_or_delegate := p0, metadata := argsEmpty }

/-- The transaction `mint_v1` submits on the all-zero inputs. -/
def mintTx0 : Tx := ⟨⟨[.mint mintIx0], p0⟩, [kp0], 0⟩

/-- The transfer instruction the model builds on the all-zero inputs. -/
def transferIx0 : TransferInstruction :=
  { tree_config := p0, merkle_tree := p0, leaf_owner := (p0, true),
    leaf_delegate := (p0, false), new_leaf_owner := p0,
    root := List.replicate 32 0, data_hash := List.replicate 32 0,
    creator_hash := List.replicate 32 0, nonce := 0, index := 0 }

/-- The transaction `transfer` submits on the all-zero inputs. -/
def transferTx0 : Tx := ⟨⟨[.transferIx transferIx0], p0⟩, [kp0, kp0], 0⟩

/-- An empty transaction, used to probe the submission client alone. -/
def txA : Tx := ⟨⟨[], p0⟩, [], 0⟩

/-! ## Round-trip lemmas for the Borsh primitives: decoding the encoding
of a value off the front of a byte string returns the value and leaves
the tail untouched. -/

theorem dU8_sU8 (n : Nat) (h : n < 256) (r : List Nat) : dU8 (sU8 n ++ r) = some (n, r) := by
  simp [sU8, dU8, Nat.mod_eq_of_lt h]

theorem dU16_sU16 (n : Nat) (h : n < 2 ^ 16) (r : List Nat) :
    dU16 (sU16 n ++ r) = some (n, r) := by
  simp only [sU16, List.cons_append, List.nil_append, dU16, Option.some.injEq,
    Prod.mk.injEq, and_true]
  omega

theorem dU32_sU32 (n : Nat) (h : n < 2 ^ 32) (r : List Nat) :
    dU32 (sU32 n ++ r) = some (n, r) := by
  simp only [sU32, List.cons_append, List.nil_append, dU32, Option.some.injEq,
    Prod.mk.injEq, and_true]
  omega

theorem dU64_sU64 (n : Nat) (h : n < 2 ^ 64) (r : List Nat) :
    dU64 (sU64 n ++ r) = some (n, r) := by
  simp only [sU64, List.cons_append, List.nil_append, dU64, Option.some.injEq,
    Prod.mk.injEq, and_true]
  omega

theorem dBool_sBool (b : Bool) (r : List Nat) : dBool (sBool b ++ r) = some (b, r) := by
  cases b <;> simp [sBool, dBool]

theorem dTake_append (s r : List Nat) : dTake s.length (s ++ r) = some (s, r) := by
  simp [dTake]

theorem dBytes_sBytes (s bs : List Nat) (h : sBytes s = some bs) (r : List Nat) :
    dBytes (bs ++ r) = some (s, r) := by
  unfold sBytes at h
  split at h
  · next hlen =>
    cases h
    simp only [dBytes, List.append_assoc, dU32_sU32 _ hlen]
    exact dTake_append s r
  · exact absurd h (by simp)

theorem dPubkey_sPubkey (p : Pubkey) (h : p.bytes.length = 32) (r : List Nat) :
    dPubkey (sPubkey p ++ r) = some (p, r) := by
  have := dTake_append p.bytes r
  rw [h] at this
  simp [dPubkey, sPubkey, this]

theorem dOption_sOption {α : Type} (f : α → List Nat)
    (g : List Nat → Option (α × List Nat)) (o : Option α)
    (hfg : ∀ x ∈ o, ∀ r, g (f x ++ r) = some (x, r)) (r : List Nat) :
    dOption g (sOption f o ++ r) = some (o, r) := by
  cases o with
  | none => simp [sOption, dOption]
  | some x => simp [sOption, dOption, hfg x rfl]

theorem dTokenProgramVersion_s (v : TokenProgramVersion) (r : List Nat) :
    dTokenProgramVersion (sTokenProgramVersion v ++ r) = some (v, r) := by
  cases v <;> simp [sTokenProgramVersion, dTokenProgramVersion]

theorem dTokenStandard_s (v : TokenStandard) (r : List Nat) :
    dTokenStandard (sTokenStandard v ++ r) = some (v, r) := by
  cases v <;> simp [sTokenStandard, dTokenStandard]

theorem dUseMethod_s (v : UseMethod) (r : List Nat) :
    dUseMethod (sUseMethod v ++ r) = some (v, r) := by
  cases v <;> simp [sUseMethod, dUseMethod]

theorem dUses_sUses (u : Uses)
    (h1 : u.remaining < 2 ^ 64) (h2 : u.total < 2 ^ 64) (r : List Nat) :
    dUses (sUses u ++ r) = some (u, r) := by
  simp [sUses, dUses, dUseMethod_s, dU64_sU64 _ h1, dU64_sU64 _ h2]

theorem dCollection_sCollection (c : Collection) (h : c.key.wf) (r : List Nat) :
    dCollection (sCollection c ++ r) = some (c, r) := by
  simp [sCollection, dCollection, dBool_sBool, dPubkey_sPubkey _ h.1]

theorem dCreator_sCreator (c : Creator) (h : c.wf) (r : List Nat) :
    dCreator (sCreator c ++ r) = some (c, r) := by
  simp [sCreator, dCreator, dBool_sBool, dPubkey_sPubkey _ h.1.1, dU8_sU8 _ h.2]

theorem dCount_creators (cs : List Creator) (h : ∀ c ∈ cs, c.wf) (r : List Nat) :
    dCount dCreator cs.length (concatAll (cs.map sCreator) ++ r) = some (cs, r) := by
  induction cs with
  | nil => simp [concatAll, dCount]
  | cons c cs ih =>
    have hc : c.wf := h c (List.mem_cons_self c cs)
    have hcs : ∀ x ∈ cs, x.wf := fun x hx => h x (List.mem_cons_of_mem c hx)
    simp [concatAll, dCount, dCreator_sCreator c hc, ih hcs]

theorem dVecCreators_sVecCreators (cs : List Creator) (bs : List Nat)
    (hwf : ∀ c ∈ cs, c.wf) (h : sVecCreators cs = some bs) (r : List Nat) :
    dVecCreators (bs ++ r) = some (cs, r) := by
  unfold sVecCreators at h
  split at h
  · next hlen =>
    cases h
    simp only [dVecCreators, List.append_assoc, dU32_sU32 _ hlen,
      Option.bind_eq_bind, Option.some_bind]
    exact dCount_creators cs hwf r
  · exact absurd h (by simp)

set_option maxHeartbeats 1000000 in
/-- Serializing a well-formed `MetadataArgs` and decoding the result off
the front of any byte string returns the value and the tail. -/
theorem dMetadataArgs_sMetadataArgs (m : MetadataArgs) (bs : List Nat)
    (hwf : m.wf) (h : sMetadataArgs m = some bs) (r : List Nat) :
    dMetadataArgs (bs ++ r) = some (m, r) := by
  obtain ⟨hn, hnl, hs, hsl, hu, hul, hsfbp, hen, hcol, huse, hcr, hcrl⟩ := hwf
  unfold sMetadataArgs at h
  split at h
  · next n sy u cs hname hsym huri hvec =>
    cases h
    unfold dMetadataArgs
    simp only [List.append_assoc, Option.bind_eq_bind]
    rw [dBytes_sBytes _ _ hname]
    simp only [Option.some_bind]
    rw [dBytes_sBytes _ _ hsym]
    simp only [Option.some_bind]
    rw [dBytes_sBytes _ _ huri]
    simp only [Option.some_bind]
    rw [dU16_sU16 _ hsfbp]
    simp only [Option.some_bind]
    rw [dBool_sBool]
    simp only [Option.some_bind]
    rw [dBool_sBool]
    simp only [Option.some_bind]
    rw [dOption_sOption sU8 dU8 m.edition_nonce
      (fun x hx r2 => dU8_sU8 x (hen x hx) r2)]
    simp only [Option.some_bind]
    rw [dOption_sOption sTokenStandard dTokenStandard m.token_standard
      (fun x _ r2 => dTokenStandard_s x r2)]
    simp only [Option.some_bind]
    rw [dOption_sOption sCollection dCollection m.collection
      (fun x hx r2 => dCollection_sCollection x (hcol x hx) r2)]
    simp only [Option.some_bind]
    rw [dOption_sOption sUses dUses m.uses
      (fun x hx r2 => dUses_sUses x (huse x hx).1 (huse x hx).2 r2)]
    simp only [Option.some_bind]
    rw [dTokenProgramVersion_s]
    simp only [Option.some_bind]
    rw [dVecCreators_sVecCreators m.creators cs hcr hvec]
    simp only [Option.some_bind]
  · exact absurd h (by simp)

/-- Every base-64 alphabet character decodes back to its sextet value. -/
theorem b64Val_b64Char : ∀ n, n < 64 → b64Val (b64Char n) = some n := by decide

/-- No base-64 alphabet character is the padding character. -/
theorem b64Char_ne_pad : ∀ n, n < 64 → b64Char n ≠ '=' := by decide

/-- Base-64 round trip: decoding the encoding of any byte list returns
exactly that byte list. -/
theorem b64decode_b64encode (bs : List Nat) (h : ∀ b ∈ bs, b < 256) :
    b64decode (b64encode bs) = some bs := by
  induction bs using b64encode.induct with
  | case1 => simp [b64encode, b64decode]
  | case2 a =>
    have ha : a < 256 := h a (by simp)
    have h1 := b64Val_b64Char (a / 4 % 64) (by omega)
    have h2 := b64Val_b64Char (a % 4 * 16) (by omega)
    simp only [b64encode, b64decode, h1, h2, if_pos rfl, reduceIte]
    rw [if_pos (by omega)]
    simp only [Option.some.injEq, List.cons.injEq, and_true]
    omega
  | case3 a b =>
    have ha : a < 256 := h a (by simp)
    have hb : b < 256 := h b (by simp)
    have h1 := b64Val_b64Char (a / 4 % 64) (by omega)
    have h2 := b64Val_b64Char (a % 4 * 16 + b / 16 % 16) (by omega)
    have h3 := b64Val_b64Char (b % 16 * 4) (by omega)
    have hne := b64Char_ne_pad (b % 16 * 4) (by omega)
    simp only [b64encode, b64decode, h1, h2, h3, if_pos rfl, reduceIte, if_neg hne]
    rw [if_pos (by omega)]
    simp only [Option.some.injEq, List.cons.injEq, and_true]
    omega
  | case4 a b c rest ih =>
    have ha : a < 256 := h a (by simp)
    have hb : b < 256 := h b (by simp)
    have hc : c < 256 := h c (by simp)
    have hrest := ih (fun x hx => h x (by simp [hx]))
    have h1 := b64Val_b64Char (a / 4 % 64) (by omega)
    have h2 := b64Val_b64Char (a % 4 * 16 + b / 16 % 16) (by omega)
    have h3 := b64Val_b64Char (b % 16 * 4 + c / 64 % 4) (by omega)
    have h4 := b64Val_b64Char (c % 64) (by omega)
    have hne := b64Char_ne_pad (c % 64) (by omega)
    simp only [b64encode, b64decode, h1, h2, h3, h4, if_neg hne, hrest]
    simp only [Option.some.injEq, List.cons.injEq, and_true]
    omega

/-! ## Every byte emitted by the Borsh serializer of a well-formed value
is an actual byte (below 256), so the base-64 layer round-trips it. -/

theorem mem_concatAll {b : Nat} :
    ∀ {ls : List (List Nat)}, b ∈ concatAll ls → ∃ l ∈ ls, b ∈ l := by
  intro ls
  induction ls with
  | nil => simp [concatAll]
  | cons l ls ih =>
    intro hb
    rcases List.mem_append.mp hb with hl | hr
    · exact ⟨l, by simp, hl⟩
    · obtain ⟨l', hl', hb'⟩ := ih hr
      exact ⟨l', by simp [hl'], hb'⟩

theorem sU8_lt (n : Nat) : ∀ b ∈ sU8 n, b < 256 := by
  simp [sU8]; omega

theorem sU16_lt (n : Nat) : ∀ b ∈ sU16 n, b < 256 := by
  simp [sU16]; omega

theorem sU32_lt (n : Nat) : ∀ b ∈ sU32 n, b < 256 := by
  simp only [sU32, List.mem_cons, List.not_mem_nil, or_false]
  intro b hb
  rcases hb with h | h | h | h <;> omega

theorem sU64_lt (n : Nat) : ∀ b ∈ sU64 n, b < 256 := by
  simp only [sU64, List.mem_cons, List.not_mem_nil, or_false]
  intro b hb
  rcases hb with h | h | h | h | h | h | h | h <;> omega

theorem sBool_lt (x : Bool) : ∀ b ∈ sBool x, b < 256 := by
  cases x <;> simp [sBool]

theorem sBytes_lt (s bs : List Nat) (hs : ∀ b ∈ s, b < 256)
    (h : sBytes s = some bs) : ∀ b ∈ bs, b < 256 := by
  unfold sBytes at h
  split at h
  · cases h
    intro b hb
    rcases List.mem_append.mp hb with hl | hr
    · exact sU32_lt _ b hl
    · exact hs b hr
  · exact absurd h (by simp)

theorem sOption_lt {α : Type} (f : α → List Nat) (o : Option α)
    (hf : ∀ x ∈ o, ∀ b ∈ f x, b < 256) : ∀ b ∈ sOption f o, b < 256 := by
  cases o with
  | none => simp [sOption]
  | some x =>
    intro b hb
    rcases List.mem_cons.mp hb with h | h
    · omega
    · exact hf x rfl b h

theorem sTokenProgramVersion_lt (v : TokenProgramVersion) :
    ∀ b ∈ sTokenProgramVersion v, b < 256 := by
  cases v <;> simp [sTokenProgramVersion]

theorem sTokenStandard_lt (v : TokenStandard) : ∀ b ∈ sTokenStandard v, b < 256 := by
  cases v <;> simp [sTokenStandard]

theorem sUseMethod_lt (v : UseMethod) : ∀ b ∈ sUseMethod v, b < 256 := by
  cases v <;> simp [sUseMethod]

theorem sUses_lt (u : Uses) : ∀ b ∈ sUses u, b < 256 := by
  intro b hb
  rcases List.mem_append.mp hb with h | h
  · rcases List.mem_append.mp h with h' | h'
    · exact sUseMethod_lt _ b h'
    · exact sU64_lt _ b h'
  · exact sU64_lt _ b h

theorem sCollection_lt (c : Collection) (hc : c.key.wf) :
    ∀ b ∈ sCollection c, b < 256 := by
  intro b hb
  rcases List.mem_append.mp hb with h | h
  · exact sBool_lt _ b h
  · exact hc.2 b h

theorem sCreator_lt (c : Creator) (hc : c.wf) : ∀ b ∈ sCreator c, b < 256 := by
  intro b hb
  rcases List.mem_append.mp hb with h | h
  · rcases List.mem_append.mp h with h' | h'
    · exact hc.1.2 b h'
    · exact sBool_lt _ b h'
  · exact sU8_lt _ b h

theorem sVecCreators_lt (cs : List Creator) (bs : List Nat)
    (hwf : ∀ c ∈ cs, c.wf) (h : sVecCreators cs = some bs) : ∀ b ∈ bs, b < 256 := by
  unfold sVecCreators at h
  split at h
  · cases h
    intro b hb
    rcases List.mem_append.mp hb with hl | hr
    · exact sU32_lt _ b hl
    · obtain ⟨l, hl, hb'⟩ := mem_concatAll hr
      obtain ⟨c, hc, rfl⟩ := List.mem_map.mp hl
      exact sCreator_lt c (hwf c hc) b hb'
  · exact absurd h (by simp)

theorem sMetadataArgs_lt (m : MetadataArgs) (bs : List Nat)
    (hwf : m.wf) (h : sMetadataArgs m = some bs) : ∀ b ∈ bs, b < 256 := by
  obtain ⟨hn, hnl, hs, hsl, hu, hul, hsfbp, hen, hcol, huse, hcr, hcrl⟩ := hwf
  unfold sMetadataArgs at h
  split at h
  · next n sy u cs hname hsym huri hvec =>
    cases h
    intro b hb
    simp only [List.append_assoc, List.mem_append] at hb
    rcases hb with hb | hb | hb | hb | hb | hb | hb | hb | hb | hb | hb | hb
    · exact sBytes_lt _ _ hn hname b hb
    · exact sBytes_lt _ _ hs hsym b hb
    · exact sBytes_lt _ _ hu huri b hb
    · exact sU16_lt _ b hb
    · exact sBool_lt _ b hb
    · exact sBool_lt _ b hb
    · exact sOption_lt _ _ (fun x hx => sU8_lt x) b hb
    · exact sOption_lt _ _ (fun x _ => sTokenStandard_lt x) b hb
    · exact sOption_lt _ _ (fun x hx => sCollection_lt x (hcol x hx)) b hb
    · exact sOption_lt _ _ (fun x _ => sUses_lt x) b hb
    · exact sTokenProgramVersion_lt _ b hb
    · exact sVecCreators_lt _ _ hcr hvec b hb
  · exact absurd h (by simp)

/-- `try_from_slice` on exactly the serialized bytes returns the value. -/
theorem metadataArgsTryFromSlice_s (m : MetadataArgs) (bs : List Nat)
    (hwf : m.wf) (h : sMetadataArgs m = some bs) :
    metadataArgsTryFromSlice bs = some m := by
  have := dMetadataArgs_sMetadataArgs m bs hwf h []
  rw [List.append_nil] at this
  simp [metadataArgsTryFromSlice, this]

/-! ## Well-formedness is produced by the parsers themselves. -/

theorem natToBEBytesAux_lt :
    ∀ (fuel n : Nat), ∀ b ∈ natToBEBytesAux fuel n, b < 256 := by
  intro fuel
  induction fuel with
  | zero => simp [natToBEBytesAux]
  | succ f ih =>
    intro n b hb
    unfold natToBEBytesAux at hb
    split at hb
    · simp at hb
    · rcases List.mem_append.mp hb with h | h
      · exact ih _ b h
      · simp at h
        omega

theorem bs58Decode_lt (s : List Char) (bytes : List Nat)
    (h : bs58Decode s = some bytes) : ∀ b ∈ bytes, b < 256 := by
  unfold bs58Decode at h
  split at h
  · exact absurd h (by simp)
  · cases h
    intro b hb
    rcases List.mem_append.mp hb with hl | hr
    · rw [List.eq_of_mem_replicate hl]; omega
    · exact natToBEBytesAux_lt _ _ b hr

theorem pubkeyFromStr_wf (s : String) (p : Pubkey)
    (h : pubkeyFromStr s = .ok p) : p.wf := by
  unfold pubkeyFromStr at h
  split at h
  · exact absurd h (by simp)
  · split at h
    · exact absurd h (by simp)
    · next bytes hdec =>
      split at h
      · next hlen =>
        cases h
        exact ⟨hlen, bs58Decode_lt s.data bytes hdec⟩
      · exact absurd h (by simp)

theorem creatorFromInput_wf (c : CreatorInput) (c' : Creator)
    (hsh : c.share < 256) (h : creatorFromInput c = .ok c') : c'.wf := by
  unfold creatorFromInput at h
  split at h
  · exact absurd h (by simp)
  · next p hp =>
    cases h
    exact ⟨pubkeyFromStr_wf c.address p hp, hsh⟩

theorem collectCreators_wf (l : List CreatorInput) (cs : List Creator)
    (hsh : ∀ c ∈ l, c.share < 256) (h : collectCreators l = .ok cs) :
    ∀ c ∈ cs, c.wf := by
  induction l generalizing cs with
  | nil =>
    cases h
    simp
  | cons c l ih =>
    unfold collectCreators at h
    split at h
    · exact absurd h (by simp)
    · next c' hc' =>
      split at h
      · exact absurd h (by simp)
      · next cs' hcs' =>
        cases h
        intro x hx
        rcases List.mem_cons.mp hx with rfl | hx'
        · exact creatorFromInput_wf c x (hsh c (by simp)) hc'
        · exact ih cs' (fun y hy => hsh y (by simp [hy])) hcs' x hx'

theorem collectCreators_length (l : List CreatorInput) (cs : List Creator)
    (h : collectCreators l = .ok cs) : cs.length = l.length := by
  induction l generalizing cs with
  | nil => cases h; rfl
  | cons c l ih =>
    unfold collectCreators at h
    split at h
    · exact absurd h (by simp)
    · split at h
      · exact absurd h (by simp)
      · next cs' hcs' =>
        cases h
        simp [ih cs' hcs']

theorem metadataArgsOf_wf (m : MetadataInput) (cs : List Creator)
    (hwf : m.wf) (h : collectCreators (m.creators.getD []) = .ok cs) :
    (metadataArgsOf m cs).wf := by
  obtain ⟨hn, hnl, hs, hsl, hu, hul, hsfbp, hsh, hcl⟩ := hwf
  refine ⟨hn, hnl, hs, hsl, hu, hul, hsfbp, by simp [metadataArgsOf],
    by simp [metadataArgsOf], by simp [metadataArgsOf],
    collectCreators_wf _ cs hsh h, ?_⟩
  simpa [metadataArgsOf, collectCreators_length _ cs h] using hcl

/-! ## Claims -/

/-- C4: for every input string, `parse_keypair` either returns a keypair
or returns the recoverable error `InvalidKeypair`; the panic of the
underlying base-58 keypair decoder is caught and converted into
`InvalidKeypair`, so the call never aborts the calling process (the
model is total: every input reaches one of the two returns). -/
theorem parse_keypair_never_aborts (s : String) :
    (∃ kp, parse_keypair s = .ok kp) ∨
      parse_keypair s = .error (.InvalidKeypair "Invalid secret key") := by
  unfold parse_keypair
  rcases hk : keypairFromBase58String s with _ | kp
  · right; rfl
  · left; exact ⟨kp, rfl⟩

/-- C5: for every pair of malformed secret strings, `parse_keypair`
returns identical results, with the fixed error message
`"Invalid secret key"`; the message does not depend on the secret. -/
theorem parse_keypair_error_message_uniform (s1 s2 : String)
    (h1 : keypairFromBase58String s1 = none)
    (h2 : keypairFromBase58String s2 = none) :
    parse_keypair s1 = parse_keypair s2 ∧
      parse_keypair s1 = .error (.InvalidKeypair "Invalid secret key") := by
  simp [parse_keypair, h1, h2]

/-- Witness for C5 at two concrete malformed secrets. -/
theorem parse_keypair_error_message_uniform_witness :
    parse_keypair "a" = parse_keypair "invalid_key" ∧
      parse_keypair "a" = .error (.InvalidKeypair "Invalid secret key") :=
  parse_keypair_error_message_uniform "a" "invalid_key" (by decide) (by decide)

/-- C8 counterexample: on an endpoint that reports a rate-limit
transport error, `submit_tx` performs exactly one submission attempt
(its network-call trace has length one, not two or more), refuting the
claimed retry with exponential backoff; the result is a terminal
`RpcError`. -/
theorem submit_no_retry_counterexample :
    (submit_tx envRate txA).2 = [.submit txA] ∧
      ¬ 2 ≤ (submit_tx envRate txA).2.length ∧
      (submit_tx envRate txA).1 =
        .error (.RpcError "429 Too Many Requests: rate limit reached") := by
  refine ⟨rfl, by decide, rfl⟩

/-- C8 (amended): `submit_tx` performs exactly one submission attempt,
with no retry or backoff; a transport failure is reported as a terminal
`RpcError` wrapping the endpoint's message, and success is the
confirmation signature (never a silent success on failure). -/
theorem submit_single_attempt (env : RpcEnv) (tx : Tx) :
    (submit_tx env tx).2 = [.submit tx] ∧
      (submit_tx env tx).1 = (match env.send_and_confirm tx with
        | .ok sig => .ok sig
        | .error e => .error (.RpcError e)) := by
  unfold submit_tx
  cases env.send_and_confirm tx <;> simp

/-- C2: evaluation of `transfer` on concrete valid inputs.  The
submitted instruction carries the all-zero placeholder root, data hash
and creator hash and nonce `0`; `transfer` has no parameters for these
four values, so they are builder-defaulted, not caller-supplied. -/
theorem transfer_placeholder_zeroes :
    transfer env0 pk1 pk1 pk1 0 sk1 sk1 = (.ok "sig", [.getBlockhash, .submit transferTx0]) ∧
      transferTx0.message.instructions = [.transferIx transferIx0] ∧
      transferIx0.root = List.replicate 32 0 ∧
      transferIx0.data_hash = List.replicate 32 0 ∧
      transferIx0.creator_hash = List.replicate 32 0 ∧
      transferIx0.nonce = 0 := by
  exact ⟨by decide, rfl, rfl, rfl, rfl, rfl⟩

/-- Helper for C6: if some creator entry has an unparsable address, the
creator conversion fails with an `InvalidPubkey` error. -/
theorem collectCreators_err (l : List CreatorInput)
    (hbad : ∃ c ∈ l, ∃ e, pubkeyFromStr c.address = .error e) :
    ∃ msg, collectCreators l = .error (.InvalidPubkey msg) := by
  induction l with
  | nil => simp at hbad
  | cons c l ih =>
    obtain ⟨c', hc', e, he⟩ := hbad
    rcases List.mem_cons.mp hc' with rfl | hmem
    · exact ⟨e, by simp [collectCreators, creatorFromInput, he]⟩
    · rcases haddr : pubkeyFromStr c.address with e0 | p0
      · exact ⟨e0, by simp [collectCreators, creatorFromInput, haddr]⟩
      · obtain ⟨msg, hmsg⟩ := ih ⟨c', hmem, e, he⟩
        exact ⟨msg, by simp [collectCreators, creatorFromInput, haddr, hmsg]⟩

/-- C6: on a schema-valid metadata document that contains a creator
whose address string is not a valid base-58 public key,
`serialize_metadata_to_borsh` fails with the error kind `InvalidPubkey`
(so in particular not with `InvalidMetadata`). -/
theorem serialize_invalid_creator_invalid_pubkey (m : MetadataInput)
    (cs : List CreatorInput) (hcs : m.creators = some cs)
    (hbad : ∃ c ∈ cs, ∃ e, pubkeyFromStr c.address = .error e) :
    ∃ msg, serialize_metadata_to_borsh m = .error (.InvalidPubkey msg) := by
  obtain ⟨msg, hmsg⟩ := collectCreators_err cs hbad
  refine ⟨msg, ?_⟩
  unfold serialize_metadata_to_borsh
  rw [hcs]
  simp [hmsg]

/-- Witness for C6 at a concrete document with a bad creator address. -/
theorem serialize_invalid_creator_invalid_pubkey_witness :
    ∃ msg, serialize_metadata_to_borsh mdDocBad = .error (.InvalidPubkey msg) :=
  serialize_invalid_creator_invalid_pubkey mdDocBad [⟨"invalid_pubkey", false, 100⟩]
    (by decide) ⟨⟨"invalid_pubkey", false, 100⟩, by decide, "Invalid Base58 string", by decide⟩

/-- Helper for C9: a well-formed `MetadataArgs` always serializes. -/
theorem sMetadataArgs_isSome (args : MetadataArgs) (hwf : args.wf) :
    ∃ bs, sMetadataArgs args = some bs := by
  obtain ⟨hn, hnl, hs, hsl, hu, hul, hsfbp, hen, hcol, huse, hcr, hcrl⟩ := hwf
  unfold sMetadataArgs sBytes sVecCreators
  rw [if_pos hnl, if_pos hsl, if_pos hul, if_pos hcrl]
  exact ⟨_, rfl⟩

/-- C9: a metadata document whose `creators` field is absent (or null)
is accepted: it is treated exactly as an empty creator list and
serialization succeeds. -/
theorem serialize_absent_creators_empty (m : MetadataInput)
    (hwf : m.wf) (hnone : m.creators = none) :
    serialize_metadata_to_borsh m =
      serialize_metadata_to_borsh { m with creators := some [] } ∧
    ∃ s, serialize_metadata_to_borsh m = .ok s := by
  constructor
  · simp [serialize_metadata_to_borsh, hnone, metadataArgsOf]
  · have hco : collectCreators (m.creators.getD []) = .ok [] := by
      rw [hnone]
      rfl
    have hargs := metadataArgsOf_wf m [] hwf hco
    obtain ⟨bs, hbs⟩ := sMetadataArgs_isSome (metadataArgsOf m []) hargs
    refine ⟨String.mk (b64encode bs), ?_⟩
    unfold serialize_metadata_to_borsh
    rw [hco]
    dsimp only
    rw [hbs]

/-- Witness for C9 at a concrete document without creators. -/
theorem serialize_absent_creators_empty_witness :
    serialize_metadata_to_borsh mdDoc0 =
      serialize_metadata_to_borsh { mdDoc0 with creators := some [] } ∧
    ∃ s, serialize_metadata_to_borsh mdDoc0 = .ok s :=
  serialize_absent_creators_empty mdDoc0 (by decide) (by decide)

/-- C1: for every metadata document accepted by
`serialize_metadata_to_borsh`, base-64-decoding the returned string and
Borsh-deserializing it into `MetadataArgs` (exactly the decode `mint_v1`
performs) reproduces the document's name, symbol, uri,
seller_fee_basis_points, creators list (in order, with the parsed
addresses and the verified/share flags), primary_sale_happened and
is_mutable. -/
theorem serialize_deserialize_roundtrip (m : MetadataInput) (s : String)
    (hwf : m.wf) (h : serialize_metadata_to_borsh m = .ok s) :
    ∃ bytes args cs,
      b64decode s.data = some bytes ∧
      metadataArgsTryFromSlice bytes = some args ∧
      collectCreators (m.creators.getD []) = .ok cs ∧
      args.name = m.name ∧ args.symbol = m.symbol ∧ args.uri = m.uri ∧
      args.seller_fee_basis_points = m.seller_fee_basis_points ∧
      args.creators = cs ∧
      args.primary_sale_happened = m.primary_sale_happened ∧
      args.is_mutable = m.is_mutable := by
  unfold serialize_metadata_to_borsh at h
  split at h
  · exact absurd h (by simp)
  · next cs hcs =>
    split at h
    · exact absurd h (by simp)
    · next bytes hbytes =>
      cases h
      have hargswf := metadataArgsOf_wf m cs hwf hcs
      have hlt := sMetadataArgs_lt _ bytes hargswf hbytes
      exact ⟨bytes, metadataArgsOf m cs, cs, b64decode_b64encode bytes hlt,
        metadataArgsTryFromSlice_s _ _ hargswf hbytes, hcs,
        rfl, rfl, rfl, rfl, rfl, rfl, rfl⟩

/-- Witness for C1 at a concrete document with one creator. -/
theorem serialize_deserialize_roundtrip_witness :
    ∃ bytes args cs,
      b64decode mdDoc1B64.data = some bytes ∧
      metadataArgsTryFromSlice bytes = some args ∧
      collectCreators (mdDoc1.creators.getD []) = .ok cs ∧
      args.name = mdDoc1.name ∧ args.symbol = mdDoc1.symbol ∧ args.uri = mdDoc1.uri ∧
      args.seller_fee_basis_points = mdDoc1.seller_fee_basis_points ∧
      args.creators = cs ∧
      args.primary_sale_happened = mdDoc1.primary_sale_happened ∧
      args.is_mutable = mdDoc1.is_mutable :=
  serialize_deserialize_roundtrip mdDoc1 mdDoc1B64 (by decide) (by decide)

/-- Trace of the blockhash helper: always exactly one RPC fetch. -/
theorem get_recent_blockhash_trace (env : RpcEnv) :
    (get_recent_blockhash env).2 = [.getBlockhash] := by
  unfold get_recent_blockhash
  cases env.latest_blockhash <;> simp

/-- Trace of the submission helper: always exactly one submission. -/
theorem submit_tx_trace (env : RpcEnv) (tx : Tx) :
    (submit_tx env tx).2 = [.submit tx] := by
  unfold submit_tx
  cases env.send_and_confirm tx <;> simp

/-- C3: every transaction `mint_v1` submits is signed by exactly one
keypair, the payer's: the signer list passed to the signing step is
`[payer_keypair]` and nothing else. -/
theorem mint_signed_by_payer_only (env : RpcEnv)
    (tree lo ld md ps los : String) (tx : Tx)
    (h : NetCall.submit tx ∈ (mint_v1 env tree lo ld md ps los).2) :
    ∃ kp, parse_keypair ps = .ok kp ∧ tx.signers = [kp] := by
  unfold mint_v1 at h
  rcases htree : parse_pubkey tree with e | tree'
  · simp only [htree] at h
    simp at h
  simp only [htree] at h
  rcases howner : parse_pubkey lo with e | owner
  · simp only [howner] at h
    simp at h
  simp only [howner] at h
  rcases hld : parse_pubkey ld with e | delegate
  · simp only [hld] at h
    simp at h
  simp only [hld] at h
  rcases hps : parse_keypair ps with e | payer_keypair
  · simp only [hps] at h
    simp at h
  simp only [hps] at h
  rcases hlos : parse_keypair los with e | lok
  · simp only [hlos] at h
    simp at h
  simp only [hlos] at h
  rcases hmd : b64decode md.data with _ | mbytes
  · simp only [hmd] at h
    simp at h
  simp only [hmd] at h
  rcases hargs : metadataArgsTryFromSlice mbytes with _ | margs
  · simp only [hargs] at h
    simp at h
  simp only [hargs] at h
  rcases henv : env.latest_blockhash with e | bh
  · simp only [get_recent_blockhash, henv] at h
    simp at h
  simp only [get_recent_blockhash, henv] at h
  rw [submit_tx_trace] at h
  simp at h
  subst h
  exact ⟨payer_keypair, rfl, rfl⟩

/-- Witness for C3: a concrete successful mint whose submitted
transaction is signed by the payer keypair alone. -/
theorem mint_signed_by_payer_only_witness :
    ∃ kp, parse_keypair sk1 = .ok kp ∧ mintTx0.signers = [kp] :=
  mint_signed_by_payer_only env0 pk1 pk1 pk1 mdB64 sk1 sk1 mintTx0 (by decide)

/-- C7: calling `mint_v1` with the tree pubkey string
`"invalid_tree_pubkey"` fails with `InvalidPubkey` and performs no
network call; more generally, whenever any of the pubkey or keypair
parses fails, the network-call trace is empty (no freshness-token fetch,
no submission). -/
theorem mint_invalid_pubkey_no_network :
    (∀ (env : RpcEnv) (lo ld md ps los : String),
      ∃ msg, mint_v1 env "invalid_tree_pubkey" lo ld md ps los =
        (.error (.InvalidPubkey msg), [])) ∧
    (∀ (env : RpcEnv) (tree lo ld md ps los : String),
      ((∃ e, parse_pubkey tree = .error e) ∨ (∃ e, parse_pubkey lo = .error e) ∨
       (∃ e, parse_pubkey ld = .error e) ∨ (∃ e, parse_keypair ps = .error e) ∨
       (∃ e, parse_keypair los = .error e)) →
      (mint_v1 env tree lo ld md ps los).2 = []) := by
  constructor
  · intro env lo ld md ps los
    refine ⟨"Invalid Base58 string", ?_⟩
    have hbad : parse_pubkey "invalid_tree_pubkey" =
        .error (.InvalidPubkey "Invalid Base58 string") := by decide
    simp [mint_v1, hbad]
  · intro env tree lo ld md ps los hbad
    rcases htree : parse_pubkey tree with e | p1
    · simp [mint_v1, htree]
    rcases hlo2 : parse_pubkey lo with e | p2
    · simp [mint_v1, htree, hlo2]
    rcases hld2 : parse_pubkey ld with e | p3
    · simp [mint_v1, htree, hlo2, hld2]
    rcases hps2 : parse_keypair ps with e | k1
    · simp [mint_v1, htree, hlo2, hld2, hps2]
    rcases hlos2 : parse_keypair los with e | k2
    · simp [mint_v1, htree, hlo2, hld2, hps2, hlos2]
    rcases hbad with ⟨e, he⟩ | ⟨e, he⟩ | ⟨e, he⟩ | ⟨e, he⟩ | ⟨e, he⟩ <;> simp_all

/-- Witness for C7: the concrete scenario run with no network call. -/
theorem mint_invalid_pubkey_no_network_witness :
    (mint_v1 env0 "invalid_tree_pubkey" pk1 pk1 mdB64 sk1 sk1).2 = [] :=
  mint_invalid_pubkey_no_network.2 env0 "invalid_tree_pubkey" pk1 pk1 mdB64 sk1 sk1
    (Or.inl ⟨.InvalidPubkey "Invalid Base58 string", by decide⟩)

/-- C10: `mint_v1` parses and validates the leaf-owner secret key: when
every other parse succeeds but the leaf-owner secret is malformed, the
whole mint fails with `InvalidKeypair` (before any network call), even
though the leaf-owner keypair is never among the transaction signers
(C3 shows the signer list is the payer keypair alone). -/
theorem mint_validates_leaf_owner_secret (env : RpcEnv)
    (tree lo ld md ps los : String)
    (htree : ∃ p, parse_pubkey tree = .ok p)
    (hlo : ∃ p, parse_pubkey lo = .ok p)
    (hld : ∃ p, parse_pubkey ld = .ok p)
    (hps : ∃ kp, parse_keypair ps = .ok kp)
    (hlos : keypairFromBase58String los = none) :
    mint_v1 env tree lo ld md ps los =
      (.error (.InvalidKeypair "Invalid secret key"), []) := by
  obtain ⟨p1, hp1⟩ := htree
  obtain ⟨p2, hp2⟩ := hlo
  obtain ⟨p3, hp3⟩ := hld
  obtain ⟨k1, hk1⟩ := hps
  unfold mint_v1
  simp only [hp1, hp2, hp3, hk1]
  simp [parse_keypair, hlos]

/-- Witness for C10 at concrete inputs with a malformed owner secret. -/
theorem mint_validates_leaf_owner_secret_witness :
    mint_v1 env0 pk1 pk1 pk1 mdB64 sk1 "invalid_key" =
      (.error (.InvalidKeypair "Invalid secret key"), []) :=
  mint_validates_leaf_owner_secret env0 pk1 pk1 pk1 mdB64 sk1 "invalid_key"
    ⟨p0, by decide⟩ ⟨p0, by decide⟩ ⟨p0, by decide⟩ ⟨kp0, by decide⟩ (by decide)

end Bubblegum
